import Mathlib

/-!
Verification of the PurePixel image-processing store against its
natural-language specification.

The definitions below are a shallow embedding of the registry / state store
(`src/store/useImageStore.ts`), the background worker's format policy
(`src/workers/image.worker.ts`), and the export bundler.  Impure platform
facilities (image decoding, canvas encoding, the external compression codec,
object-URL allocation and id generation) are modelled as explicit parameters
(`Env`, id/url suppliers), so that every store operation becomes a pure
function on an explicit `AppState`.
-/

namespace PurePixel

/-- Processing status of a record, `ProcessStatus` in `types`. -/
inductive ProcessStatus
  | idle
  | processing
  | done
  | error
deriving DecidableEq, Repr

/-- Processing mode, `ProcessMode` in `types`. -/
inductive ProcessMode
  | convert
  | compress
  | both
deriving DecidableEq, Repr

/-- An encoded byte buffer: its MIME type and byte length.  The actual pixel
content is irrelevant to every claim, so a blob is its observable surface. -/
structure Blob where
  mime : String
  size : Nat
deriving DecidableEq, Repr

/-- A loaded file: display name, declared MIME type, byte length. -/
structure SrcFile where
  name : String
  type : String
  size : Nat
deriving DecidableEq, Repr

/-- Per-image settings, the `settings` field of `ImageConfig` in `types`. -/
structure ImageSettings where
  format : String
  enableCompression : Bool
  mode : ProcessMode
  maintainAspectRatio : Bool
  scale : Option ℚ
  width : Option Nat
  height : Option Nat
deriving DecidableEq, Repr

/-- The `result` payload stored on a record once processing succeeds. -/
structure ResultInfo where
  blob : Blob
  url : Nat
  size : Nat
  originalSize : Nat
  compressionRatio : ℚ
deriving DecidableEq, Repr

/-- One image record, `ImageConfig` in `types`. -/
structure ImageConfig where
  id : String
  file : SrcFile
  previewUrl : Nat
  status : ProcessStatus
  errorMessage : Option String := none
  settings : ImageSettings
  result : Option ResultInfo := none
deriving DecidableEq, Repr

/-- Global settings, the fields the store initialises and copies
(`defaultGlobalSettings` in `useImageStore.ts`). -/
structure GlobalSettings where
  format : String
  enableCompression : Bool
  mode : ProcessMode
  maintainAspectRatio : Bool
  scale : Option ℚ
deriving DecidableEq, Repr

/-- The whole registry state (`AppState` in `types`). -/
structure AppState where
  images : List ImageConfig
  globalSettings : GlobalSettings
  isProcessing : Bool
deriving DecidableEq, Repr

/-- The `defaultGlobalSettings` from `useImageStore.ts`. -/
def defaultGlobalSettings : GlobalSettings :=
  { format := "image/webp"
    enableCompression := true
    mode := .convert
    maintainAspectRatio := true
    scale := some 1 }

/-- The registry at process start: empty collection, default settings. -/
def initialState : AppState :=
  { images := [], globalSettings := defaultGlobalSettings, isProcessing := false }

/-- The impure platform surface used by the processing pipeline.
`decode` is `new Image()` loading (dimensions on success, `none` on
`onerror`); `ctxOk` is whether `canvas.getContext('2d')` succeeds;
`encode w h fmt q` is `canvas.toBlob` on a `w×h` canvas (`none` models a
null blob); `compressRun` is the external `browser-image-compression`
codec, which may reject. -/
structure Env where
  decode : SrcFile → Option (Nat × Nat)
  ctxOk : Bool
  encode : Nat → Nat → String → ℚ → Option Blob
  compressRun : Blob → Except String Blob

/-- The quality chosen inside `convertImage` (`useImageStore.ts`
lines 73–80). -/
def convertQuality (format : String) (enableCompression : Bool) : ℚ :=
  if enableCompression then
    if format = "image/jpeg" ∨ format = "image/webp" then (0.92 : ℚ)
    else if format = "image/avif" then (0.9 : ℚ)
    else 1
  else 1

/-- The `convertImage` from `useImageStore.ts` (lines 45–102): load the image,
size a canvas to the decoded dimensions, draw, and encode at the computed
quality.  A null blob rejects with `转换失败`; a missing 2d context rejects
with `无法创建 Canvas 上下文`; a failed load rejects with `图片加载失败`. -/
def convertImage (env : Env) (file : SrcFile) (format : String)
    (enableCompression : Bool) : Except String Blob :=
  match env.decode file with
  | none => .error "图片加载失败"
  | some (w, h) =>
    if env.ctxOk then
      match env.encode w h format (convertQuality format enableCompression) with
      | some blob => .ok blob
      | none => .error "转换失败"
    else .error "无法创建 Canvas 上下文"

/-- A `File` handed to the external compressor is observably its MIME type
and byte length. -/
def fileAsBlob (f : SrcFile) : Blob := { mime := f.type, size := f.size }

/-- The `compressImage` from `useImageStore.ts` (lines 107–122): delegate to the
external codec. -/
def compressImage (env : Env) (b : Blob) : Except String Blob :=
  env.compressRun b

/-- The mode dispatch inside `processSingleImage` (`useImageStore.ts`
lines 236–253). -/
def runPipeline (env : Env) (image : ImageConfig) : Except String Blob :=
  match image.settings.mode with
  | .convert => convertImage env image.file image.settings.format false
  | .compress => compressImage env (fileAsBlob image.file)
  | .both =>
    match convertImage env image.file image.settings.format
        image.settings.enableCompression with
    | .error e => .error e
    | .ok converted =>
      if image.settings.enableCompression then compressImage env converted
      else .ok converted

/-- First `set` inside `processSingleImage`: flip the record to
`processing`. -/
def markProcessing (st : AppState) (idv : String) : AppState :=
  { st with images := st.images.map fun img =>
      if img.id = idv then { img with status := .processing } else img }

/-- Success `set` inside `processSingleImage`: store the result and flip to
`done`.  Note the record's previous `errorMessage` is not touched. -/
def settleSuccess (st : AppState) (idv : String) (blob : Blob) (url : Nat)
    (originalSize : Nat) : AppState :=
  { st with images := st.images.map fun img =>
      if img.id = idv then
        { img with
          status := .done
          result := some
            { blob := blob, url := url, size := blob.size
              originalSize := originalSize
              compressionRatio := 1 - (blob.size : ℚ) / (originalSize : ℚ) } }
      else img }

/-- Catch `set` inside `processSingleImage`: store the message and flip to
`error`.  Note the record's previous `result` is not touched. -/
def settleError (st : AppState) (idv : String) (msg : String) : AppState :=
  { st with images := st.images.map fun img =>
      if img.id = idv then { img with status := .error, errorMessage := some msg }
      else img }

/-- The `processSingleImage` from `useImageStore.ts` (lines 223–288).  The
fresh object URL for the result blob is supplied by `url`. -/
def processSingleImage (env : Env) (url : Nat) (st : AppState) (idv : String) :
    AppState :=
  match st.images.find? (fun img => img.id = idv) with
  | none => st
  | some image =>
    let st1 := markProcessing st idv
    match runPipeline env image with
    | .ok blob => settleSuccess st1 idv blob url image.file.size
    | .error msg => settleError st1 idv msg

/-- The record produced for one accepted file by `addFiles`
(`useImageStore.ts` lines 139–151): status `idle`, settings copied from the
current global settings. -/
def mkRecord (g : GlobalSettings) (idv : String) (url : Nat) (file : SrcFile) :
    ImageConfig :=
  { id := idv
    file := file
    previewUrl := url
    status := .idle
    settings :=
      { format := g.format
        enableCompression := g.enableCompression
        mode := g.mode
        maintainAspectRatio := g.maintainAspectRatio
        scale := g.scale
        width := none
        height := none } }

/-- JS `String.prototype.startsWith`, written on character lists. -/
def strStartsWith (s p : String) : Bool :=
  s.toList.take p.toList.length == p.toList

/-- The `addFiles` from `useImageStore.ts` (lines 135–156).  Ids and preview
URLs are supplied positionally by `newId` / `newUrl` (the source draws them
from a clock and RNG). -/
def addFiles (st : AppState) (files : List SrcFile) (newId : Nat → String)
    (newUrl : Nat → Nat) : AppState :=
  let validFiles := files.filter fun f => strStartsWith f.type "image/"
  let newImages := validFiles.enum.map fun p =>
    mkRecord st.globalSettings (newId p.1) (newUrl p.1) p.2
  { st with images := st.images ++ newImages }

/-- The `removeImage` from `useImageStore.ts` (lines 161–174). -/
def removeImage (st : AppState) (idv : String) : AppState :=
  { st with images := st.images.filter fun img => img.id ≠ idv }

/-- A `Partial<ImageConfig['settings']>` value: present fields overwrite. -/
structure SettingsPatch where
  format : Option String := none
  enableCompression : Option Bool := none
  mode : Option ProcessMode := none
  maintainAspectRatio : Option Bool := none
  scale : Option (Option ℚ) := none
  width : Option (Option Nat) := none
  height : Option (Option Nat) := none

/-- The spread `{ ...img.settings, ...settings }`. -/
def applyPatch (s : ImageSettings) (p : SettingsPatch) : ImageSettings :=
  { format := p.format.getD s.format
    enableCompression := p.enableCompression.getD s.enableCompression
    mode := p.mode.getD s.mode
    maintainAspectRatio := p.maintainAspectRatio.getD s.maintainAspectRatio
    scale := p.scale.getD s.scale
    width := p.width.getD s.width
    height := p.height.getD s.height }

/-- The `updateSettings` from `useImageStore.ts` (lines 179–187): merge the
patch, force `idle`, drop the result.  `errorMessage` is not touched. -/
def updateSettings (st : AppState) (idv : String) (p : SettingsPatch) : AppState :=
  { st with images := st.images.map fun img =>
      if img.id = idv then
        { img with settings := applyPatch img.settings p
                   status := .idle
                   result := none }
      else img }

/-- A `Partial<GlobalSettings>` value. -/
structure GlobalPatch where
  format : Option String := none
  enableCompression : Option Bool := none
  mode : Option ProcessMode := none
  maintainAspectRatio : Option Bool := none
  scale : Option (Option ℚ) := none

/-- The `updateGlobalSettings` from `useImageStore.ts` (lines 192–196). -/
def updateGlobalSettings (st : AppState) (p : GlobalPatch) : AppState :=
  { st with globalSettings :=
      { format := p.format.getD st.globalSettings.format
        enableCompression := p.enableCompression.getD st.globalSettings.enableCompression
        mode := p.mode.getD st.globalSettings.mode
        maintainAspectRatio := p.maintainAspectRatio.getD st.globalSettings.maintainAspectRatio
        scale := p.scale.getD st.globalSettings.scale } }

/-- The per-record body of `applyGlobalSettings`'s map (`useImageStore.ts`
lines 204–216). -/
def applyRecord (g : GlobalSettings) (img : ImageConfig) : ImageConfig :=
  { img with
    settings :=
      { img.settings with
        format := g.format
        enableCompression := g.enableCompression
        mode := g.mode
        maintainAspectRatio := g.maintainAspectRatio
        scale := g.scale }
    status := .idle
    result := none }

/-- The `applyGlobalSettings` from `useImageStore.ts` (lines 201–218): overwrite
the copied fields of every record's settings, force `idle`, drop results. -/
def applyGlobalSettings (st : AppState) : AppState :=
  { st with images := st.images.map (applyRecord st.globalSettings) }

/-- Ids of the records `processImages` launches (`useImageStore.ts`
line 297): every record whose status is not `done`. -/
def pendingIds (st : AppState) : List String :=
  (st.images.filter fun img => img.status ≠ .done).map (·.id)

/-- Run the launched per-record operations in a given completion order. -/
def runBatch (env : Env) (url : String → Nat) (st : AppState)
    (order : List String) : AppState :=
  order.foldl (fun s i => processSingleImage env (url i) s i) st

/-- The states passed through by a batch run: the flag is raised first, then
the launched operations settle one at a time. -/
def batchStates (env : Env) (url : String → Nat) (st : AppState)
    (order : List String) : List AppState :=
  order.scanl (fun s i => processSingleImage env (url i) s i)
    { st with isProcessing := true }

/-- The `processImages` from `useImageStore.ts` (lines 293–303), with the
completion order of the concurrently launched operations made explicit. -/
def processImagesIn (env : Env) (url : String → Nat) (st : AppState)
    (order : List String) : AppState :=
  { runBatch env url { st with isProcessing := true } order with
    isProcessing := false }

/-- The `processImages` with the source's launch order. -/
def processImages (env : Env) (url : String → Nat) (st : AppState) : AppState :=
  processImagesIn env url st (pendingIds st)

/-! ### Export bundler (`exportImages`, `sanitizeFileName`, `getExtension`) -/

/-- The `getExtension` from `useImageStore.ts` (lines 20–29). -/
def getExtension (format : String) : String :=
  if format = "image/jpeg" then "jpg"
  else if format = "image/png" then "png"
  else if format = "image/webp" then "webp"
  else if format = "image/avif" then "avif"
  else if format = "image/gif" then "gif"
  else "png"

/-- Membership in the character class of `sanitizeFileName`'s regex
`[a-zA-Z0-9_\-一-龥.]`. -/
def isAllowedChar (c : Char) : Bool :=
  (0x61 ≤ c.toNat && c.toNat ≤ 0x7a) ||
  (0x41 ≤ c.toNat && c.toNat ≤ 0x5a) ||
  (0x30 ≤ c.toNat && c.toNat ≤ 0x39) ||
  c == '_' || c == '-' || c == '.' ||
  (0x4e00 ≤ c.toNat && c.toNat ≤ 0x9fa5)

/-- The `sanitizeFileName` from `useImageStore.ts` (lines 13–15): every
character outside the class is replaced with an underscore. -/
def sanitizeFileName (name : String) : String :=
  String.mk (name.toList.map fun c => if isAllowedChar c then c else '_')

/-- The `name.replace(/\.[^/.]+$/, '')`: drop a final `.ext` whose `ext` is a
nonempty run free of dots and slashes. -/
def stripExt (name : String) : String :=
  let rev := name.toList.reverse
  let ext := rev.takeWhile fun c => c ≠ '.' && c ≠ '/'
  match rev.drop ext.length with
  | '.' :: rest => if ext.isEmpty then name else String.mk rest.reverse
  | _ => name

/-- The download name built in `exportImages` (lines 319–321 and 334–336):
sanitized base name, fixed `_purepixel` suffix, extension looked up from the
record's stored `settings.format`. -/
def exportFileName (img : ImageConfig) : String :=
  sanitizeFileName (stripExt img.file.name) ++ "_purepixel." ++
    getExtension img.settings.format

/-- The `zip.file(name, blob)`: JSZip replaces an existing entry of the same
name, otherwise appends. -/
def zipAdd (entries : List (String × Blob)) (name : String) (blob : Blob) :
    List (String × Blob) :=
  if entries.any fun e => e.1 = name then
    entries.map fun e => if e.1 = name then (name, blob) else e
  else entries ++ [(name, blob)]

/-- One iteration of the `for` loop of `exportImages` (lines 331–339):
records without a result are skipped (`continue`), others are added to the
archive under their export name. -/
def zipStep (acc : List (String × Blob)) (img : ImageConfig) :
    List (String × Blob) :=
  match img.result with
  | some r => zipAdd acc (exportFileName img) r.blob
  | none => acc

/-- The archive contents built by the `for` loop of `exportImages`
(lines 331–339). -/
def zipEntries (doneImages : List ImageConfig) : List (String × Blob) :=
  doneImages.foldl zipStep []

/-- The observable download effect of `exportImages`. -/
inductive ExportAction
  | noop
  | single (fileName : String) (url : Nat)
  | zipArchive (entries : List (String × Blob))
deriving DecidableEq, Repr

/-- The records `exportImages` exports (line 310). -/
def doneList (st : AppState) : List ImageConfig :=
  st.images.filter fun img => img.status = .done && img.result.isSome

/-- The `exportImages` from `useImageStore.ts` (lines 308–351). -/
def exportImages (st : AppState) : ExportAction :=
  let doneImages := doneList st
  if doneImages.length = 0 then .noop
  else if doneImages.length = 1 then
    match doneImages with
    | [img] =>
      match img.result with
      | some r => .single (exportFileName img) r.url
      | none => .noop
    | _ => .noop
  else .zipArchive (zipEntries doneImages)

/-! ### Worker format policy (`image.worker.ts`) -/

/-- The output format and encoding quality chosen by the worker
(`image.worker.ts` lines 54–72): `outputFormat` starts as the requested
format and `quality` as 1.0; `convert`/`both` keep the requested format and
lower the quality only when the compression flag is set; `compress` reverts
to the source MIME type at 0.92. -/
def workerFormatQuality (ty : ProcessMode) (mimeType format : String)
    (enableCompression : Bool) : String × ℚ :=
  match ty with
  | .convert | .both =>
    (format,
      if enableCompression then
        if format = "image/jpeg" ∨ format = "image/webp" then (0.92 : ℚ)
        else if format = "image/avif" then (0.9 : ℚ)
        else 1
      else 1)
  | .compress => (mimeType, (0.92 : ℚ))

/-! ### Concrete fixtures (used by witnesses and counterexamples) -/

/-- A 1000-byte PNG file. -/
def pngFile : SrcFile := { name := "photo.png", type := "image/png", size := 1000 }

/-- A 2000-byte JPEG file. -/
def jpgFile : SrcFile := { name := "pic.jpg", type := "image/jpeg", size := 2000 }

/-- A non-image file. -/
def txtFile : SrcFile := { name := "notes.txt", type := "text/plain", size := 5 }

/-- Two same-named files, to exercise export-name collisions. -/
def dupFileA : SrcFile := { name := "a.png", type := "image/png", size := 300 }

/-- Second file named `a.png`. -/
def dupFileB : SrcFile := { name := "a.png", type := "image/png", size := 400 }

/-- Positional id supply standing in for `generateId`. -/
def idSupply (n : Nat) : String := "img_" ++ toString n

/-- Positional object-URL supply standing in for `URL.createObjectURL`. -/
def urlSupply (n : Nat) : Nat := n + 100

/-- Per-id object-URL supply for batch runs. -/
def urlOf (_ : String) : Nat := 55

/-- A runtime on which every decode and encode succeeds. -/
def envOk : Env :=
  { decode := fun _ => some (100, 50)
    ctxOk := true
    encode := fun _ _ fmt _ => some { mime := fmt, size := 10 }
    compressRun := fun b => .ok { mime := b.mime, size := b.size / 2 } }

/-- A runtime whose canvas encoder always yields a null blob. -/
def envFailEncode : Env :=
  { decode := fun _ => some (100, 50)
    ctxOk := true
    encode := fun _ _ _ _ => none
    compressRun := fun b => .ok b }

/-- A runtime that reports the canvas dimensions it was asked to encode:
the resulting blob's `size` is `10000 * width + height`. -/
def envDims : Env :=
  { decode := fun _ => some (2000, 1000)
    ctxOk := true
    encode := fun w h fmt _ => some { mime := fmt, size := 10000 * w + h }
    compressRun := fun b => .ok b }

/-- A runtime that can only encode PNG: every other target format yields a
null blob. -/
def envPngOnly : Env :=
  { decode := fun _ => some (100, 50)
    ctxOk := true
    encode := fun _ _ fmt _ =>
      if fmt = "image/png" then some { mime := "image/png", size := 42 } else none
    compressRun := fun b => .ok b }

/-- A runtime that cannot produce AVIF output (its AVIF encodes are null)
but encodes every other format fine — the Scenario C runtime. -/
def envNoAvif : Env :=
  { decode := fun _ => some (10, 10)
    ctxOk := true
    encode := fun _ _ fmt _ =>
      if fmt = "image/avif" then none else some { mime := fmt, size := 9 }
    compressRun := fun b => .ok b }

/-- A runtime whose external compressor halves the byte size and keeps the
input MIME type (the library's default behaviour). -/
def envCompress : Env :=
  { decode := fun _ => some (100, 50)
    ctxOk := true
    encode := fun _ _ fmt _ => some { mime := fmt, size := 10 }
    compressRun := fun b => .ok { mime := b.mime, size := 500 } }

/-- One freshly added PNG record under the default global settings. -/
def stOneIdle : AppState := addFiles initialState [pngFile] idSupply urlSupply

/-- The `stOneIdle` after a successful `processSingleImage` run: the record is
`done` with a stored result. -/
def stOneDone : AppState := processSingleImage envOk 7 stOneIdle "img_0"

/-- The `stOneDone` after a second, failing `processSingleImage` run. -/
def stDoneThenFail : AppState := processSingleImage envFailEncode 8 stOneDone "img_0"

/-- The `stDoneThenFail` after a third, successful retry. -/
def stFailThenRetry : AppState := processSingleImage envOk 9 stDoneThenFail "img_0"

/-- The record `addFiles` creates for `pngFile` under default settings. -/
def recPng : ImageConfig :=
  mkRecord defaultGlobalSettings (idSupply 0) (urlSupply 0) pngFile

/-- Registry whose global scale is 0.5 (Scenario A's resize policy). -/
def stHalfScale : AppState :=
  addFiles (updateGlobalSettings initialState { scale := some (some (1/2 : ℚ)) })
    [pngFile] idSupply urlSupply

/-- Registry with one record in mode `compress` whose stored target format
is WEBP, processed to `done`: the result blob is PNG, the setting WEBP. -/
def stCompressDone : AppState :=
  processSingleImage envCompress 7
    (addFiles (updateGlobalSettings initialState { mode := some .compress })
      [pngFile] idSupply urlSupply)
    "img_0"

/-- Registry with two same-named records processed to `done`. -/
def stTwoDone : AppState :=
  processSingleImage envOk 8
    (processSingleImage envOk 7
      (addFiles initialState [dupFileA, dupFileB] idSupply urlSupply) "img_0")
    "img_1"

/-- Two idle records, for batch-run witnesses. -/
def stTwoIdle : AppState := addFiles initialState [pngFile, jpgFile] idSupply urlSupply

/-- The export name the specification's words predict: the extension is
implied by the record's effective output format — the format actually
encoded into the stored result.  Modelled from the spec for comparison with
the source's `exportFileName`. -/
def specExportName (img : ImageConfig) : String :=
  sanitizeFileName (stripExt img.file.name) ++ "_purepixel." ++
    (match img.result with
     | some r => getExtension r.blob.mime
     | none => getExtension img.settings.format)

/-- How one launched record ends up after its own transform settles:
success stores a result and flips to `done`, failure stores the message and
flips to `error`.  (Derived shape of `processSingleImage`'s two `set`s.) -/
def stepRecord (env : Env) (url : Nat) (img : ImageConfig) : ImageConfig :=
  match runPipeline env img with
  | .ok blob =>
    { img with
      status := .done
      result := some
        { blob := blob, url := url, size := blob.size
          originalSize := img.file.size
          compressionRatio := 1 - (blob.size : ℚ) / (img.file.size : ℚ) } }
  | .error msg => { img with status := .error, errorMessage := some msg }

/-! ## Theorems -/

/-- Composing `applyRecord` with itself changes nothing: the overwritten
fields are overwritten with the same values, the others are kept. -/
theorem applyRecord_applyRecord (g : GlobalSettings) (img : ImageConfig) :
    applyRecord g (applyRecord g img) = applyRecord g img := rfl

/-- C9: `applyGlobalSettings` is idempotent — applying the (unchanged)
global settings a second time yields the same registry state, per-record
settings, statuses and results included. -/
theorem c9_applyGlobalSettings_idempotent (st : AppState) :
    applyGlobalSettings (applyGlobalSettings st) = applyGlobalSettings st := by
  have h : applyRecord st.globalSettings ∘ applyRecord st.globalSettings
      = applyRecord st.globalSettings := funext fun _ => rfl
  simp only [applyGlobalSettings, List.map_map, h]

/-- C10: calling `processSingleImage` with an id that no record carries
returns the state unchanged — collection, statuses, results, global
settings and the `isProcessing` flag. -/
theorem c10_processSingleImage_unknown_id (env : Env) (url : Nat)
    (st : AppState) (idv : String) (h : ∀ img ∈ st.images, img.id ≠ idv) :
    processSingleImage env url st idv = st := by
  have hf : st.images.find? (fun img => img.id = idv) = none := by
    rw [List.find?_eq_none]
    intro img hm
    simpa using h img hm
  simp [processSingleImage, hf]

/-- Witness for C10 at a registry holding one record with a different id. -/
theorem c10_witness : processSingleImage envOk 0 stOneIdle "absent" = stOneIdle :=
  c10_processSingleImage_unknown_id envOk 0 stOneIdle "absent" (by decide)

/-- C2: the worker's format policy — mode `compress` keeps the original
MIME type at quality 0.92 regardless of the compression flag; modes
`convert` and `both` keep the requested format at quality 1.0 unless the
compression flag is set, in which case JPEG/WEBP get 0.92, AVIF 0.90, and
every other format 1.0. -/
theorem c2_format_policy (mimeType format : String) (c : Bool) :
    workerFormatQuality .compress mimeType format c = (mimeType, (0.92 : ℚ)) ∧
    ∀ ty, (ty = ProcessMode.convert ∨ ty = ProcessMode.both) →
      (workerFormatQuality ty mimeType format c).1 = format ∧
      (c = false → (workerFormatQuality ty mimeType format c).2 = 1) ∧
      (c = true → format = "image/jpeg" ∨ format = "image/webp" →
        (workerFormatQuality ty mimeType format c).2 = (0.92 : ℚ)) ∧
      (c = true → format = "image/avif" →
        (workerFormatQuality ty mimeType format c).2 = (0.9 : ℚ)) ∧
      (c = true → format ≠ "image/jpeg" → format ≠ "image/webp" →
        format ≠ "image/avif" →
        (workerFormatQuality ty mimeType format c).2 = 1) := by
  refine ⟨rfl, ?_⟩
  rintro ty (rfl | rfl) <;>
    refine ⟨rfl, fun hc => by subst hc; rfl, fun hc hfmt => ?_,
      fun hc hfmt => by subst hc; subst hfmt; rfl, fun hc h1 h2 h3 => ?_⟩ <;>
    first
      | (rcases hfmt with rfl | rfl <;> subst hc <;> rfl)
      | (subst hc; simp [workerFormatQuality, h1, h2, h3])

/-- Witness for C2: requesting AVIF with the compression flag set in mode
`convert` yields quality 0.90. -/
theorem c2_witness :
    (workerFormatQuality .convert "image/png" "image/avif" true).2 = (0.9 : ℚ) :=
  ((c2_format_policy "image/png" "image/avif" true).2 .convert (Or.inl rfl)).2.2.2.1
    rfl rfl

/-- C3: the failing input of Scenario A evaluated on the code.  The record's
resize policy is `scale = 0.5`, yet `convertImage` sizes its canvas to the
decoded dimensions, so the 2000×1000 input is encoded at 2000×1000 — not at
the 1000×500 the claim requires.  (`envDims` reports the encoded surface as
`10000·width + height` in the blob size.) -/
theorem c3_scale_ignored_at_2000x1000 :
    (stHalfScale.images.map fun img => img.settings.scale) = [some (1/2 : ℚ)] ∧
    ((processSingleImage envDims 9 stHalfScale "img_0").images.map fun img =>
        img.result.map fun r => (r.blob.mime, r.blob.size)) =
      [some ("image/webp", 20001000)] ∧
    (20001000 : Nat) = 10000 * 2000 + 1000 ∧
    (20001000 : Nat) ≠ 10000 * 1000 + 500 :=
  ⟨rfl, rfl, rfl, by decide⟩

/-- When the canvas encoder yields a null blob, `convertImage` rejects with
`转换失败`. -/
theorem convertImage_encode_none (env : Env) (f : SrcFile) (fmt : String)
    (c : Bool) (w h : Nat) (hd : env.decode f = some (w, h))
    (hctx : env.ctxOk = true)
    (he : env.encode w h fmt (convertQuality fmt c) = none) :
    convertImage env f fmt c = .error "转换失败" := by
  simp [convertImage, hd, hctx, he]

/-- C4 counterexample: on a runtime that encodes PNG but yields a null blob
for WEBP, the transform fails outright — the claimed silent PNG retry never
happens even though PNG encoding would have succeeded. -/
theorem c4_no_png_fallback :
    convertImage envPngOnly pngFile "image/webp" false = .error "转换失败" ∧
    envPngOnly.encode 100 50 "image/png" 1
      = some { mime := "image/png", size := 42 } :=
  ⟨rfl, rfl⟩

/-- C4 amended: whenever the primary encode to the target format yields an
empty/null result, the transform fails with the error `转换失败`; no PNG
retry is attempted. -/
theorem c4_amended_encode_failure_rejects (env : Env) (f : SrcFile)
    (fmt : String) (c : Bool) (w h : Nat) (hd : env.decode f = some (w, h))
    (hctx : env.ctxOk = true)
    (he : env.encode w h fmt (convertQuality fmt c) = none) :
    convertImage env f fmt c = .error "转换失败" :=
  convertImage_encode_none env f fmt c w h hd hctx he

/-- Witness for C4 amended at the PNG-only runtime. -/
theorem c4_amended_witness :
    convertImage envPngOnly jpgFile "image/webp" false = .error "转换失败" :=
  c4_amended_encode_failure_rejects envPngOnly jpgFile "image/webp" false 100 50
    rfl rfl rfl

/-- C5 counterexample: on the Scenario C runtime (`envNoAvif`, whose AVIF
encodes are null while WEBP succeeds), requesting AVIF makes the operation
fail — no capability probe runs and WEBP is not substituted; the worker
policy likewise hands `image/avif` straight to the encoder. -/
theorem c5_no_avif_probe :
    convertImage envNoAvif pngFile "image/avif" false = .error "转换失败" ∧
    envNoAvif.encode 10 10 "image/webp" 1
      = some { mime := "image/webp", size := 9 } ∧
    (workerFormatQuality .convert "image/png" "image/avif" false).1
      = "image/avif" :=
  ⟨rfl, rfl, rfl⟩

/-- Every branch of `processSingleImage` leaves every record's settings
untouched. -/
theorem processSingleImage_map_settings (env : Env) (url : Nat)
    (st : AppState) (idv : String) :
    ((processSingleImage env url st idv).images.map fun img => img.settings)
      = st.images.map fun img => img.settings := by
  unfold processSingleImage
  cases hf : st.images.find? (fun img => img.id = idv) with
  | none => rfl
  | some img₀ =>
    cases hp : runPipeline env img₀ with
    | ok blob =>
      simp only [hp, markProcessing, settleSuccess, settleError, List.map_map]
      refine List.map_congr_left fun img _ => ?_
      by_cases hid : img.id = idv <;> simp [hid]
    | error msg =>
      simp only [hp, markProcessing, settleSuccess, settleError, List.map_map]
      refine List.map_congr_left fun img _ => ?_
      by_cases hid : img.id = idv <;> simp [hid]

/-- C5 amended: no AVIF capability probe exists.  An operation that encodes
to AVIF hands `image/avif` directly to the encoder (worker policy), and on
a runtime whose AVIF encodes are null the operation fails with `转换失败`
instead of substituting WEBP; processing never mutates any record's stored
settings. -/
theorem c5_amended_no_probe_no_substitution :
    (∀ env f c w h, env.decode f = some (w, h) → env.ctxOk = true →
      env.encode w h "image/avif" (convertQuality "image/avif" c) = none →
      convertImage env f "image/avif" c = .error "转换失败") ∧
    (∀ ty mime c, ty = ProcessMode.convert ∨ ty = ProcessMode.both →
      (workerFormatQuality ty mime "image/avif" c).1 = "image/avif") ∧
    (∀ env url st idv,
      ((processSingleImage env url st idv).images.map fun img => img.settings)
        = st.images.map fun img => img.settings) := by
  refine ⟨fun env f c w h hd hctx he =>
    convertImage_encode_none env f "image/avif" c w h hd hctx he,
    fun ty mime c hty => ?_, processSingleImage_map_settings⟩
  rcases hty with rfl | rfl <;> rfl

/-- Witness for C5 amended at the Scenario C runtime. -/
theorem c5_amended_witness :
    convertImage envNoAvif jpgFile "image/avif" true = .error "转换失败" :=
  c5_amended_no_probe_no_substitution.1 envNoAvif jpgFile true 10 10 rfl rfl rfl

/-- In a collection with no duplicate ids, `find?` by id returns the (one)
member carrying that id. -/
theorem find?_id_of_nodup {l : List ImageConfig} {a : ImageConfig} {b : String}
    (hn : (l.map fun img => img.id).Nodup) (ha : a ∈ l) (hb : a.id = b) :
    l.find? (fun x => x.id = b) = some a := by
  induction l with
  | nil => cases ha
  | cons hd tl ih =>
    rw [List.map_cons, List.nodup_cons] at hn
    rcases List.mem_cons.mp ha with rfl | hmem
    · subst hb
      simp [List.find?_cons]
    · have hne : ¬hd.id = b := by
        intro h
        exact hn.1 (h ▸ hb ▸ List.mem_map_of_mem (fun img => img.id) hmem)
      simp [List.find?_cons, hne, ih hn.2 hmem]

/-- Single-step shape of `processSingleImage` on a collection with unique
ids: exactly the record carrying the id is replaced by its settled form. -/
theorem processSingleImage_images (env : Env) (url : Nat) (st : AppState)
    {idv : String} {img₀ : ImageConfig}
    (hn : (st.images.map fun img => img.id).Nodup)
    (hf : st.images.find? (fun img => img.id = idv) = some img₀) :
    (processSingleImage env url st idv).images =
      st.images.map fun img =>
        if img.id = idv then stepRecord env url img else img := by
  have hmem : img₀ ∈ st.images := List.mem_of_find?_eq_some hf
  have hid : img₀.id = idv := by simpa using List.find?_some hf
  unfold processSingleImage
  simp only [hf]
  cases hp : runPipeline env img₀ with
  | ok blob =>
    simp only [hp, markProcessing, settleSuccess, List.map_map]
    refine List.map_congr_left fun img hm => ?_
    by_cases h : img.id = idv
    · have heq : img = img₀ :=
        List.inj_on_of_nodup_map hn hm hmem (by rw [h, hid])
      subst heq
      simp [h, stepRecord, hp]
    · simp [h]
  | error msg =>
    simp only [hp, markProcessing, settleError, List.map_map]
    refine List.map_congr_left fun img hm => ?_
    by_cases h : img.id = idv
    · have heq : img = img₀ :=
        List.inj_on_of_nodup_map hn hm hmem (by rw [h, hid])
      subst heq
      simp [h, stepRecord, hp]
    · simp [h]

/-- C1 counterexample: the claimed invariants fail on reachable states.
After a `done` record's retry fails, the record sits in `error` with the
old result still stored (so both "result set" and "status ≠ done" hold);
after a further successful retry the record sits in `done` with the stale
error message still stored (so both "errorMessage set" and "status ≠ error"
hold). -/
theorem c1_stale_result_and_message :
    (stDoneThenFail.images.map fun img => (img.status, img.result.isSome))
      = [(ProcessStatus.error, true)] ∧
    (stFailThenRetry.images.map fun img => (img.status, img.errorMessage.isSome))
      = [(ProcessStatus.done, true)] :=
  ⟨rfl, rfl⟩

/-- C1 amended: when `processSingleImage` fails, the record moves to
`error` with the message stored but any previously stored result is
retained, not discarded; when it succeeds, the result is stored but any
stale error message is retained; `updateSettings` resets the record to
`idle` and drops the result but keeps the stale error message.  (The
record-replacement form on the right keeps every field not listed.) -/
theorem c1_amended_transitions (env : Env) (url : Nat) (st : AppState)
    (idv : String) (img₀ : ImageConfig)
    (hn : (st.images.map fun img => img.id).Nodup)
    (hf : st.images.find? (fun img => img.id = idv) = some img₀) :
    (∀ msg, runPipeline env img₀ = .error msg →
      (processSingleImage env url st idv).images =
        st.images.map fun img =>
          if img.id = idv then
            { img with status := .error, errorMessage := some msg }
          else img) ∧
    (∀ blob, runPipeline env img₀ = .ok blob →
      (processSingleImage env url st idv).images =
        st.images.map fun img =>
          if img.id = idv then
            { img with
              status := .done
              result := some
                { blob := blob, url := url, size := blob.size
                  originalSize := img.file.size
                  compressionRatio :=
                    1 - (blob.size : ℚ) / (img.file.size : ℚ) } }
          else img) ∧
    (∀ p, (updateSettings st idv p).images =
      st.images.map fun img =>
        if img.id = idv then
          { img with settings := applyPatch img.settings p
                     status := .idle
                     result := none }
        else img) := by
  have hmem : img₀ ∈ st.images := List.mem_of_find?_eq_some hf
  have hid : img₀.id = idv := by simpa using List.find?_some hf
  refine ⟨fun msg hp => ?_, fun blob hp => ?_, fun p => rfl⟩ <;>
  · rw [processSingleImage_images env url st hn hf]
    refine List.map_congr_left fun img hm => ?_
    by_cases h : img.id = idv
    · have heq : img = img₀ :=
        List.inj_on_of_nodup_map hn hm hmem (by rw [h, hid])
      subst heq
      simp [h, stepRecord, hp]
    · simp [h]

/-- Witness for C1 amended: the failing retry on `stOneDone`. -/
theorem c1_amended_witness :
    (processSingleImage envFailEncode 8 stOneDone "img_0").images =
      stOneDone.images.map fun img =>
        if img.id = "img_0" then
          { img with status := .error, errorMessage := some "转换失败" }
        else img :=
  (c1_amended_transitions envFailEncode 8 stOneDone "img_0"
      (stepRecord envOk 7 recPng) (by decide) rfl).1 "转换失败" rfl

/-- Settling a record never changes its id. -/
theorem stepRecord_id (env : Env) (url : Nat) (img : ImageConfig) :
    (stepRecord env url img).id = img.id := by
  unfold stepRecord
  cases runPipeline env img <;> rfl

/-- The `processSingleImage` never touches the `isProcessing` flag. -/
theorem processSingleImage_isProcessing (env : Env) (url : Nat)
    (st : AppState) (idv : String) :
    (processSingleImage env url st idv).isProcessing = st.isProcessing := by
  unfold processSingleImage
  cases hf : st.images.find? (fun img => img.id = idv) with
  | none => rfl
  | some img₀ =>
    cases hp : runPipeline env img₀ <;>
      simp [hp, markProcessing, settleSuccess, settleError]

/-- The `processSingleImage` preserves the multiset of record ids. -/
theorem processSingleImage_map_id (env : Env) (url : Nat) (st : AppState)
    {idv : String} {img₀ : ImageConfig}
    (hn : (st.images.map fun img => img.id).Nodup)
    (hf : st.images.find? (fun img => img.id = idv) = some img₀) :
    ((processSingleImage env url st idv).images.map fun img => img.id)
      = st.images.map fun img => img.id := by
  rw [processSingleImage_images env url st hn hf, List.map_map]
  refine List.map_congr_left fun img _ => ?_
  by_cases h : img.id = idv <;> simp [h, stepRecord_id]

/-- Running a batch in any duplicate-free order drawn from pending records
settles exactly the records whose id occurs in the order, each by its own
transform outcome, and leaves every other record untouched. -/
theorem runBatch_images (env : Env) (url : String → Nat) :
    ∀ (order : List String) (st : AppState),
      (st.images.map fun img => img.id).Nodup →
      order.Nodup →
      (∀ i ∈ order, ∃ img ∈ st.images, img.id = i ∧ img.status ≠ .done) →
      (runBatch env url st order).images =
        st.images.map fun img =>
          if img.id ∈ order then stepRecord env (url img.id) img else img := by
  intro order
  induction order with
  | nil =>
    intro st _ _ _
    simp [runBatch]
  | cons i rest ih =>
    intro st hn hndo hmem
    obtain ⟨img₀, hm₀, hid₀, _⟩ := hmem i (List.mem_cons_self i rest)
    have hf : st.images.find? (fun x => x.id = i) = some img₀ :=
      find?_id_of_nodup hn hm₀ hid₀
    have hni : i ∉ rest := (List.nodup_cons.mp hndo).1
    have hstep := processSingleImage_images env (url i) st hn hf
    have hids := processSingleImage_map_id env (url i) st hn hf
    have hrun : runBatch env url st (i :: rest)
        = runBatch env url (processSingleImage env (url i) st i) rest := rfl
    have hmem' : ∀ j ∈ rest, ∃ img' ∈ (processSingleImage env (url i) st i).images,
        img'.id = j ∧ img'.status ≠ .done := by
      intro j hj
      obtain ⟨img, hm, hid, hst⟩ := hmem j (List.mem_cons_of_mem i hj)
      have hji : ¬ img.id = i := by
        rw [hid]
        intro h
        exact hni (h ▸ hj)
      refine ⟨img, ?_, hid, hst⟩
      rw [hstep]
      have hre : (if img.id = i then stepRecord env (url i) img else img) = img :=
        if_neg hji
      exact hre ▸ List.mem_map_of_mem _ hm
    rw [hrun, ih (processSingleImage env (url i) st i) (hids.symm ▸ hn)
      (List.nodup_cons.mp hndo).2 hmem', hstep, List.map_map]
    refine List.map_congr_left fun img _ => ?_
    by_cases h : img.id = i
    · simp [Function.comp, h, stepRecord_id, hni, List.mem_cons]
    · simp [Function.comp, h, List.mem_cons]

/-- Every state passed through while a batch settles keeps the raised
flag. -/
theorem batchStates_flag (env : Env) (url : String → Nat) :
    ∀ (order : List String) (b : AppState), b.isProcessing = true →
      ∀ s ∈ order.scanl (fun s i => processSingleImage env (url i) s i) b,
        s.isProcessing = true := by
  intro order
  induction order with
  | nil =>
    intro b hb s hs
    simp only [List.scanl] at hs
    rw [List.mem_singleton.mp hs]
    exact hb
  | cons i rest ih =>
    intro b hb s hs
    simp only [List.scanl] at hs
    rcases List.mem_cons.mp hs with rfl | hs'
    · exact hb
    · exact ih (processSingleImage env (url i) b i)
        ((processSingleImage_isProcessing env (url i) b i).trans hb) s hs'

/-- C6: for every completion order of the concurrently launched operations,
`processImages` launches exactly the records whose status is not `done`;
the `isProcessing` flag holds at every state from invocation until the last
launched operation settles, and is cleared afterwards; each launched record
ends settled by its own transform outcome (so one record's failure never
affects another), and `done` records are untouched. -/
theorem c6_processImages_batch (env : Env) (url : String → Nat)
    (st : AppState) (order : List String)
    (hn : (st.images.map fun img => img.id).Nodup)
    (hperm : order.Perm (pendingIds st)) :
    pendingIds st
      = (st.images.filter fun img => img.status ≠ .done).map (fun img => img.id) ∧
    (∀ s ∈ batchStates env url st order, s.isProcessing = true) ∧
    (processImagesIn env url st order).isProcessing = false ∧
    (processImagesIn env url st order).images =
      st.images.map fun img =>
        if img.status = .done then img else stepRecord env (url img.id) img := by
  have hnd_p : (pendingIds st).Nodup := by
    have hsub : List.Sublist
        ((st.images.filter fun img => img.status ≠ .done).map fun img => img.id)
        (st.images.map fun img => img.id) :=
      (List.filter_sublist _).map _
    exact hn.sublist hsub
  have hno : order.Nodup := hperm.nodup_iff.mpr hnd_p
  have hmem : ∀ i ∈ order, ∃ img ∈ st.images, img.id = i ∧ img.status ≠ .done := by
    intro i hi
    have hip : i ∈ pendingIds st := hperm.mem_iff.mp hi
    obtain ⟨img, hmf, hid⟩ := List.mem_map.mp hip
    refine ⟨img, List.mem_of_mem_filter hmf, hid, ?_⟩
    simpa using List.of_mem_filter hmf
  refine ⟨rfl, batchStates_flag env url order _ rfl, rfl, ?_⟩
  show (runBatch env url { st with isProcessing := true } order).images = _
  rw [runBatch_images env url order { st with isProcessing := true } hn hno hmem]
  refine List.map_congr_left fun img hm => ?_
  by_cases hdone : img.status = .done
  · have hnotin : img.id ∉ order := by
      intro hin
      obtain ⟨img', hm', hid', hst'⟩ := hmem _ hin
      have heq : img' = img := List.inj_on_of_nodup_map hn hm' hm hid'
      exact hst' (heq.symm ▸ hdone)
    rw [if_neg hnotin, if_pos hdone]
  · have hpend : img.id ∈ pendingIds st :=
      List.mem_map_of_mem _ (List.mem_filter.mpr ⟨hm, by simpa using hdone⟩)
    rw [if_pos (hperm.mem_iff.mpr hpend), if_neg hdone]

/-- Witness for C6: two idle records settled in reversed order. -/
theorem c6_witness :
    (processImagesIn envOk urlOf stTwoIdle ["img_1", "img_0"]).isProcessing
        = false ∧
    (processImagesIn envOk urlOf stTwoIdle ["img_1", "img_0"]).images =
      stTwoIdle.images.map fun img =>
        if img.status = .done then img else stepRecord envOk (urlOf img.id) img :=
  ⟨(c6_processImages_batch envOk urlOf stTwoIdle ["img_1", "img_0"] (by decide)
      (List.Perm.swap "img_0" "img_1" [])).2.2.1,
   (c6_processImages_batch envOk urlOf stTwoIdle ["img_1", "img_0"] (by decide)
      (List.Perm.swap "img_0" "img_1" [])).2.2.2⟩

/-- C8 counterexample: the registry itself filters non-image inputs —
`addFiles` on a `text/plain` file creates no record at all, contradicting
the claim that filtering is left to the caller. -/
theorem c8_registry_filters_nonimages :
    (addFiles initialState [txtFile] idSupply urlSupply).images = [] ∧
    txtFile.type = "text/plain" ∧
    strStartsWith txtFile.type "image/" = false :=
  ⟨rfl, rfl, rfl⟩

/-- C8 amended: `addFiles` keeps exactly the inputs whose declared MIME
type starts with `image/`, appending for each one a fresh record in status
`idle` whose settings copy the current global settings; non-image inputs
are silently skipped by the registry itself; global settings and the
`isProcessing` flag are untouched. -/
theorem c8_amended_addFiles (st : AppState) (files : List SrcFile)
    (newId : Nat → String) (newUrl : Nat → Nat) :
    (addFiles st files newId newUrl).images =
      st.images ++ ((files.filter fun f => strStartsWith f.type "image/").enum.map
        fun p => mkRecord st.globalSettings (newId p.1) (newUrl p.1) p.2) ∧
    (∀ img ∈ (addFiles st files newId newUrl).images.drop st.images.length,
      img.status = .idle ∧ img.result = none ∧ img.errorMessage = none ∧
      img.settings.format = st.globalSettings.format ∧
      img.settings.enableCompression = st.globalSettings.enableCompression ∧
      img.settings.mode = st.globalSettings.mode ∧
      img.settings.maintainAspectRatio = st.globalSettings.maintainAspectRatio ∧
      img.settings.scale = st.globalSettings.scale) ∧
    (addFiles st files newId newUrl).globalSettings = st.globalSettings ∧
    (addFiles st files newId newUrl).isProcessing = st.isProcessing := by
  refine ⟨rfl, ?_, rfl, rfl⟩
  intro img hm
  have hdrop : (addFiles st files newId newUrl).images.drop st.images.length
      = (files.filter fun f => strStartsWith f.type "image/").enum.map
        fun p => mkRecord st.globalSettings (newId p.1) (newUrl p.1) p.2 := by
    show (st.images ++ _).drop st.images.length = _
    rw [List.drop_left]
  rw [hdrop] at hm
  obtain ⟨p, _, rfl⟩ := List.mem_map.mp hm
  exact ⟨rfl, rfl, rfl, rfl, rfl, rfl, rfl, rfl⟩

/-- Witness for C8 amended: the record created for the PNG input of a mixed
image/non-image batch. -/
theorem c8_amended_witness :
    (mkRecord stOneDone.globalSettings (idSupply 0) (urlSupply 0) pngFile).status
        = ProcessStatus.idle ∧
    (mkRecord stOneDone.globalSettings (idSupply 0) (urlSupply 0) pngFile).result
        = none ∧
    (mkRecord stOneDone.globalSettings (idSupply 0) (urlSupply 0)
        pngFile).errorMessage = none ∧
    (mkRecord stOneDone.globalSettings (idSupply 0) (urlSupply 0)
        pngFile).settings.format = stOneDone.globalSettings.format ∧
    (mkRecord stOneDone.globalSettings (idSupply 0) (urlSupply 0)
        pngFile).settings.enableCompression
        = stOneDone.globalSettings.enableCompression ∧
    (mkRecord stOneDone.globalSettings (idSupply 0) (urlSupply 0)
        pngFile).settings.mode = stOneDone.globalSettings.mode ∧
    (mkRecord stOneDone.globalSettings (idSupply 0) (urlSupply 0)
        pngFile).settings.maintainAspectRatio
        = stOneDone.globalSettings.maintainAspectRatio ∧
    (mkRecord stOneDone.globalSettings (idSupply 0) (urlSupply 0)
        pngFile).settings.scale = stOneDone.globalSettings.scale :=
  (c8_amended_addFiles stOneDone [pngFile, txtFile] idSupply urlSupply).2.1
    (mkRecord stOneDone.globalSettings (idSupply 0) (urlSupply 0) pngFile)
    (by decide)

/-- Adding an entry to the archive keeps the existing names and appends the
new one only when it is not already present. -/
theorem zipAdd_names (es : List (String × Blob)) (n : String) (b : Blob) :
    (zipAdd es n b).map Prod.fst =
      if n ∈ es.map Prod.fst then es.map Prod.fst
      else es.map Prod.fst ++ [n] := by
  unfold zipAdd
  by_cases h : (es.any fun e => e.1 = n) = true
  · have hmem : n ∈ es.map Prod.fst := by
      obtain ⟨e, hme, he⟩ := List.any_eq_true.mp h
      exact List.mem_map.mpr ⟨e, hme, by simpa using he⟩
    rw [if_pos h, if_pos hmem, List.map_map]
    refine List.map_congr_left fun e _ => ?_
    by_cases h1 : e.1 = n <;> simp [h1]
  · have hmem : n ∉ es.map Prod.fst := by
      intro hn
      obtain ⟨e, hme, he⟩ := List.mem_map.mp hn
      exact h (List.any_eq_true.mpr ⟨e, hme, by simpa using he⟩)
    rw [if_neg h, if_neg hmem, List.map_append]
    rfl

/-- Folding records into the archive: the entry names stay duplicate-free,
and a name occurs exactly when some folded record exports under it. -/
theorem zipFold_names :
    ∀ (l : List ImageConfig) (acc : List (String × Blob)),
      (∀ img ∈ l, img.result.isSome = true) →
      (acc.map Prod.fst).Nodup →
      ((l.foldl zipStep acc).map Prod.fst).Nodup ∧
      (∀ n, n ∈ (l.foldl zipStep acc).map Prod.fst ↔
        n ∈ acc.map Prod.fst ∨ n ∈ l.map exportFileName) := by
  intro l
  induction l with
  | nil =>
    intro acc _ hacc
    exact ⟨hacc, fun n => by simp⟩
  | cons hd tl ih =>
    intro acc hall hacc
    obtain ⟨r, hr⟩ :=
      Option.isSome_iff_exists.mp (hall hd (List.mem_cons_self hd tl))
    have hstep : zipStep acc hd = zipAdd acc (exportFileName hd) r.blob := by
      unfold zipStep
      rw [hr]
    have hnames := zipAdd_names acc (exportFileName hd) r.blob
    have hnd' : ((zipAdd acc (exportFileName hd) r.blob).map Prod.fst).Nodup := by
      rw [hnames]
      by_cases h : exportFileName hd ∈ acc.map Prod.fst
      · rw [if_pos h]
        exact hacc
      · rw [if_neg h]
        simp [List.nodup_append, hacc, h]
    have hmm : ∀ n, n ∈ (zipAdd acc (exportFileName hd) r.blob).map Prod.fst ↔
        n ∈ acc.map Prod.fst ∨ n = exportFileName hd := by
      intro n
      rw [hnames]
      by_cases h : exportFileName hd ∈ acc.map Prod.fst
      · rw [if_pos h]
        constructor
        · exact Or.inl
        · rintro (hn | rfl)
          · exact hn
          · exact h
      · rw [if_neg h]
        simp
    have hfold : (hd :: tl).foldl zipStep acc = tl.foldl zipStep (zipStep acc hd) :=
      rfl
    rw [hfold, hstep]
    obtain ⟨ihnd, ihmem⟩ := ih (zipAdd acc (exportFileName hd) r.blob)
      (fun img hm => hall img (List.mem_cons_of_mem _ hm)) hnd'
    refine ⟨ihnd, fun n => ?_⟩
    rw [ihmem n, hmm n]
    simp only [List.map_cons, List.mem_cons]
    tauto

/-- Every record `exportImages` selects carries a result. -/
theorem doneList_isSome (st : AppState) :
    ∀ img ∈ doneList st, img.result.isSome = true := by
  intro img hm
  have := List.of_mem_filter hm
  simp only [Bool.and_eq_true, decide_eq_true_eq] at this
  exact this.2

/-- C7 counterexample: (a) a `compress`-mode record whose stored format is
WEBP but whose encoded result is PNG is exported as `.webp` — the extension
follows the stored setting, not the effective output format; (b) two done
records with colliding sanitized names produce an archive with a single
entry, not one entry per done record. -/
theorem c7_export_name_and_collision :
    exportImages stCompressDone = .single "photo_purepixel.webp" 7 ∧
    (stCompressDone.images.map specExportName) = ["photo_purepixel.png"] ∧
    ("photo_purepixel.webp" : String) ≠ "photo_purepixel.png" ∧
    (doneList stTwoDone).length = 2 ∧
    exportImages stTwoDone
      = .zipArchive [("a_purepixel.webp", { mime := "image/webp", size := 10 })] :=
  ⟨rfl, rfl, by decide, rfl, rfl⟩

/-- C7 amended: `exportImages` is a no-op when no record is done; with
exactly one done record it produces a single download named from the
sanitized base filename, the fixed `_purepixel` suffix and the extension
implied by the record's stored format setting; with more than one it
builds a single archive holding one entry per distinct sanitized filename
(a later record overwrites an earlier one on collision); sanitization
replaces every character outside `A–Z a–z 0–9 _ - .` and U+4E00–U+9FA5
with an underscore. -/
theorem c7_amended_export (st : AppState) :
    ((doneList st).length = 0 → exportImages st = .noop) ∧
    (∀ img r, doneList st = [img] → img.result = some r →
      exportImages st = .single (exportFileName img) r.url) ∧
    (2 ≤ (doneList st).length →
      exportImages st = .zipArchive (zipEntries (doneList st)) ∧
      ((zipEntries (doneList st)).map Prod.fst).Nodup ∧
      (∀ n, n ∈ (zipEntries (doneList st)).map Prod.fst ↔
        n ∈ (doneList st).map exportFileName)) ∧
    (∀ name : String, (sanitizeFileName name).toList =
      name.toList.map fun c => if isAllowedChar c then c else '_') := by
  refine ⟨fun h0 => ?_, fun img r hl hr => ?_, fun h2 => ?_, fun name => rfl⟩
  · simp [exportImages, h0]
  · simp [exportImages, hl, hr]
  · have h0 : ¬(doneList st).length = 0 := by omega
    have h1 : ¬(doneList st).length = 1 := by omega
    obtain ⟨hnd, hmem⟩ := zipFold_names (doneList st) [] (doneList_isSome st)
      (by simp)
    refine ⟨by simp [exportImages, h0, h1, zipEntries], hnd, fun n => ?_⟩
    rw [show zipEntries (doneList st) = (doneList st).foldl zipStep [] from rfl,
      hmem n]
    simp

/-- Witness for C7 amended: the two-record collision registry exports one
archive. -/
theorem c7_amended_witness :
    exportImages stTwoDone = .zipArchive (zipEntries (doneList stTwoDone)) :=
  ((c7_amended_export stTwoDone).2.2.1 (by decide)).1

end PurePixel
